import Mathlib

/-!
Shallow embedding of `risconvert` (src/src/main.cpp): the RIS bitmap-list
container reader (`extract`, `export_plain_bitmap`, `export_compressed_bitmap`,
`derive_output_filename`, `is_bitmap_list`) and its LZ-style window
decompressor (`ilzrwstream_impl::try_read`).

Byte sources are modelled as a byte list `data : List Nat` together with an
explicit read position `pos : Nat` (the file plus its seek cursor);
`istream::read` (exact read or `end_of_stream`, the only failure the decode
paths can see) becomes `tryReadBytesP`.  The typed reads `read<uint8_t>`,
`read<uint16_t>`, `read<uint32_t>` assemble little-endian values, masking
each byte with `% 256` to mirror the C value ranges.  Errors are
`Except.error`; the output file written by `export_bitmap` becomes the list
of bytes passed to `ostream::write`.
-/

namespace Risconvert

/-- Model of `istream::read(buffer, amount)`: deliver exactly `n` bytes
starting at `pos`, or fail with `end_of_stream` (`Except.error ()`) when
fewer than `n` bytes remain before the end of the source. -/
def tryReadBytesP (data : List Nat) (pos n : Nat) : Except Unit (List Nat × Nat) :=
  if pos + n ≤ data.length then
    .ok ((data.drop pos).take n, pos + n)
  else
    .error ()

/-- Model of `istream::read<uint8_t>()`. -/
def readU8 (data : List Nat) (pos : Nat) : Except Unit (Nat × Nat) :=
  match tryReadBytesP data pos 1 with
  | .ok ([b], p) => .ok (b % 256, p)
  | _ => .error ()

/-- Model of `istream::read<uint16_t>()`, little-endian as on the reference
host. -/
def readU16 (data : List Nat) (pos : Nat) : Except Unit (Nat × Nat) :=
  match tryReadBytesP data pos 2 with
  | .ok ([b0, b1], p) => .ok (b0 % 256 + 256 * (b1 % 256), p)
  | _ => .error ()

/-- Model of `istream::read<uint32_t>()`, little-endian as on the reference
host. -/
def readU32 (data : List Nat) (pos : Nat) : Except Unit (Nat × Nat) :=
  match tryReadBytesP data pos 4 with
  | .ok ([b0, b1, b2, b3], p) =>
      .ok (b0 % 256 + 256 * (b1 % 256) + 65536 * (b2 % 256) + 16777216 * (b3 % 256), p)
  | _ => .error ()

/-- Distance field of a back-reference descriptor, from
`const size_t ofs = ((tmp & 0xf000) >> 4) | (tmp & 0xff);`. -/
def lz_ofs (tmp : Nat) : Nat :=
  ((tmp &&& 0xf000) >>> 4) ||| (tmp &&& 0xff)

/-- Length field of a back-reference descriptor, from
`const size_t len = ((tmp & 0xf00) >> 8) + 1;`. -/
def lz_len (tmp : Nat) : Nat :=
  ((tmp &&& 0xf00) >>> 8) + 1

/-- Window index used by the back-reference copy loop, from
`const auto index = ((m_window_index + (sizeof(m_window) - ofs)) % sizeof(m_window)) + i;`
with `sizeof(m_window) = 4096`.  Note the `+ i` lies outside the `%`. -/
def window_ref_index (window_index ofs i : Nat) : Nat :=
  ((window_index + (4096 - ofs)) % 4096) + i

/-- State of `ilzrwstream_impl`: the 4096-byte window, the window cursor
(`uint16_t`, kept below 4096 by the code's own `% sizeof(m_window)`), the
16-bit control word and the count of control bits it still covers. -/
structure LZState where
  window : List Nat
  window_index : Nat
  control_bits : Nat
  control_remaining : Nat
deriving Repr, DecidableEq

/-- Constructor `ilzrwstream_impl::ilzrwstream_impl`: the initializer list
sets `m_window_index`, `m_control_bits` and `m_control_remaining` to zero
but does not mention `m_window`, so the array keeps whatever bytes the
allocation already held; `w` stands for those indeterminate contents and is
passed through untouched. -/
def ilzrwstream_init (w : List Nat) : LZState :=
  { window := w, window_index := 0, control_bits := 0, control_remaining := 0 }

/-- The copy loop of the back-reference branch:
`for (size_t i = 0; i < len; ++i) { index = ...; *dst = m_window[index]; }`.
Every iteration stores to the same location `*dst`, whose prior content is
`dst0` (`none` when the cell was never written).  A window index past 4095
is an out-of-bounds array read in the C++; `List.getD` returns its default
there. -/
def lz_copy (w : List Nat) (wi ofs len : Nat) (dst0 : Option Nat) : Option Nat :=
  (List.range len).foldl (fun _d i => some (w.getD (window_ref_index wi ofs i) 0)) dst0

/-- Control-word refill at the top of the loop body of
`ilzrwstream_impl::try_read`: when `m_control_remaining == 0`, read a fresh
16-bit control word and set the counter to 16; otherwise leave the state
alone. -/
def lz_refill (st : LZState) (data : List Nat) (pos : Nat) :
    Except Unit (LZState × Nat) :=
  if st.control_remaining = 0 then
    match readU16 data pos with
    | .error e => .error e
    | .ok (w, p) =>
        .ok ({ st with control_bits := w, control_remaining := 16 }, p)
  else .ok (st, pos)

/-- One iteration of the loop body of `ilzrwstream_impl::try_read`: refill
the control word if needed, test `m_control_bits & 0x1`, then decode one
token, writing through `dst = buffer + offset`.  The back-reference branch
reads a 16-bit descriptor and runs `lz_copy`; it does not store to the
window and does not move `m_window_index`.  The literal branch reads one
byte, stores it to `*dst` and into the window at the cursor, and advances
the cursor modulo 4096.  Nothing in either branch shifts `m_control_bits`
or decrements `m_control_remaining`. -/
def lz_step (st : LZState) (data : List Nat) (pos : Nat)
    (buf : Nat → Option Nat) (offset : Nat) :
    Except Unit (LZState × Nat × (Nat → Option Nat)) :=
  match lz_refill st data pos with
  | .error e => .error e
  | .ok (st1, p1) =>
    if st1.control_bits &&& 1 ≠ 0 then
      match readU16 data p1 with
      | .error e => .error e
      | .ok (tmp, p2) =>
          .ok (st1, p2, Function.update buf offset
                (lz_copy st1.window st1.window_index (lz_ofs tmp) (lz_len tmp)
                  (buf offset)))
    else
      match readU8 data p1 with
      | .error e => .error e
      | .ok (v, p2) =>
          .ok ({ st1 with window := st1.window.set st1.window_index v,
                          window_index := (st1.window_index + 1) % 4096 },
               p2, Function.update buf offset (some v))

/-- Loop of `ilzrwstream_impl::try_read(buffer, amount)`.  The source
declares `remaining = amount` and iterates while `remaining > 0`, but no
statement in the body ever changes `remaining`, so `offset = amount -
remaining` is the same on every iteration and the loop can only be left
through `end_of_stream` thrown by an inner read — or immediately, via
`return 0`, when it never runs.  Each iteration consumes at least one
input byte, which bounds the model's recursion by the input left.  On the
(`remaining = 0`) exit the function returns 0 together with the state,
position and buffer. -/
def lz_try_read (st : LZState) (data : List Nat) (pos amount remaining : Nat)
    (buf : Nat → Option Nat) :
    Except Unit (Nat × LZState × Nat × (Nat → Option Nat)) :=
  if remaining = 0 then .ok (0, st, pos, buf)
  else
    match h : lz_step st data pos buf (amount - remaining) with
    | .error e => .error e
    | .ok (st', pos', buf') => lz_try_read st' data pos' amount remaining buf'
termination_by data.length - pos
decreasing_by
  have hb : pos < pos' ∧ pos' ≤ data.length := by
    have h8 : ∀ p v q, readU8 data p = .ok (v, q) → p < q ∧ q ≤ data.length := by
      intro p v q hr
      unfold readU8 tryReadBytesP at hr
      split at hr
      · rename_i hle
        split at hle
        · rename_i hcond
          simp only [Except.ok.injEq, Prod.mk.injEq] at hle hr
          omega
        · exact absurd hle (by simp)
      · exact absurd hr (by simp)
    have h16 : ∀ p v q, readU16 data p = .ok (v, q) → p < q ∧ q ≤ data.length := by
      intro p v q hr
      unfold readU16 tryReadBytesP at hr
      split at hr
      · rename_i hle
        split at hle
        · rename_i hcond
          simp only [Except.ok.injEq, Prod.mk.injEq] at hle hr
          omega
        · exact absurd hle (by simp)
      · exact absurd hr (by simp)
    have hrf : ∀ st1 p1, lz_refill st data pos = .ok (st1, p1) →
        pos ≤ p1 ∧ p1 ≤ data.length ∨ p1 = pos := by
      intro st1 p1 hr
      unfold lz_refill at hr
      split at hr
      · split at hr
        · exact absurd hr (by simp)
        · rename_i w p hw
          simp only [Except.ok.injEq, Prod.mk.injEq] at hr
          have := h16 _ _ _ hw
          omega
      · simp only [Except.ok.injEq, Prod.mk.injEq] at hr
        omega
    unfold lz_step at h
    split at h
    · exact absurd h (by simp)
    · rename_i st1 p1 hrfe
      have hp1 := hrf _ _ hrfe
      split at h
      · split at h
        · exact absurd h (by simp)
        · rename_i tmp p2 htmp
          simp only [Except.ok.injEq, Prod.mk.injEq] at h
          have := h16 _ _ _ htmp
          omega
      · split at h
        · exact absurd h (by simp)
        · rename_i v p2 hv
          simp only [Except.ok.injEq, Prod.mk.injEq] at h
          have := h8 _ _ _ hv
          omega
  omega

/-- Entry point `ilzrwstream_impl::try_read(buffer, amount)`: the loop with
`remaining` starting at `amount` and the destination buffer initially
unwritten at every offset. -/
def ilz_try_read (st : LZState) (data : List Nat) (pos amount : Nat) :
    Except Unit (Nat × LZState × Nat × (Nat → Option Nat)) :=
  lz_try_read st data pos amount amount (fun _ => none)

/-- Model of `istream::read(buffer, amount)` called on an `ilzrwstream`:
the read loop keeps calling `try_read` and throws `end_of_stream` as soon
as `try_read` returns 0; the bytes a failed call stored into the caller's
buffer are never observed, so the buffer is dropped here. -/
def lz_read (st : LZState) (data : List Nat) (pos remaining : Nat) :
    Except Unit (LZState × Nat) :=
  if remaining = 0 then .ok (st, pos)
  else
    match lz_try_read st data pos remaining remaining (fun _ => none) with
    | .error e => .error e
    | .ok (r, st', pos', _) =>
      if r = 0 then .error ()
      else lz_read st' data pos' (remaining - r)
termination_by remaining
decreasing_by omega

/-- Model of `export_bitmap` reading from the plain file source: copy
`amount` bytes from the input to the freshly created output file in chunks
of at most 4096 (`len = min(remaining, sizeof(buffer))`), returning the
bytes written and the final input position. -/
def export_bitmap_plain (data : List Nat) (pos remaining : Nat) :
    Except Unit (List Nat × Nat) :=
  if remaining = 0 then .ok ([], pos)
  else
    match tryReadBytesP data pos (min remaining 4096) with
    | .error e => .error e
    | .ok (chunk, p) =>
      match export_bitmap_plain data p (remaining - min remaining 4096) with
      | .error e => .error e
      | .ok (out, p2) => .ok (chunk ++ out, p2)
termination_by remaining
decreasing_by omega

/-- Model of `export_bitmap` reading from an `ilzrwstream` (compressed
entries): the same chunked loop, with each chunk fetched through `lz_read`;
a successful `lz_read` yields no observable bytes (see `lz_read`), so the
file content on the never-taken success path is modelled as empty. -/
def export_bitmap_lz (st : LZState) (data : List Nat) (pos remaining : Nat) :
    Except Unit (List Nat × LZState × Nat) :=
  if remaining = 0 then .ok ([], st, pos)
  else
    match lz_read st data pos (min remaining 4096) with
    | .error e => .error e
    | .ok (st', p) =>
      match export_bitmap_lz st' data p (remaining - min remaining 4096) with
      | .error e => .error e
      | .ok (out, st2, p2) => .ok (out, st2, p2)
termination_by remaining
decreasing_by omega

/-- Model of `std::string::find_last_of('.')`: the index of the last
occurrence of `c`, or `none`. -/
def find_last_of (s : List Char) (c : Char) : Option Nat :=
  match s with
  | [] => none
  | a :: rest =>
    match find_last_of rest c with
    | some i => some (i + 1)
    | none => if a = c then some 0 else none

/-- Model of `derive_output_filename`: `snprintf("%.*s.%zu.bmp", dot, s, index)`
keeps the first `dot` characters of the input name and appends a dot, the
decimal index and `.bmp`; when the name holds no dot the function returns
the empty string. -/
def derive_output_filename (fname : List Char) (index : Nat) : List Char :=
  match find_last_of fname '.' with
  | some dot => fname.take dot ++ ('.' :: (Nat.repr index).data) ++ ".bmp".data
  | none => []

/-- The 8 magic bytes of `"LMDBML30"`. -/
def bitmap_list_magic : List Nat := [76, 77, 68, 66, 77, 76, 51, 48]

/-- Model of `is_bitmap_list`: `memcmp` of the 8 magic bytes. -/
def is_bitmap_list (magic : List Nat) : Bool :=
  magic == bitmap_list_magic

/-- The error values `extract` and its callees can raise. -/
inductive ExtractError where
  | endOfStream : ExtractError
  | unknownVersion : Nat → ExtractError
  | unknownType : Nat → ExtractError
deriving Repr, DecidableEq

/-- Result of a run of `extract`: the files written (destination name and
byte content of each completed entry export), the error that aborted the
run if one did, and whether "Does not contain images" was printed. -/
structure ExtractOutcome where
  outputs : List (List Char × List Nat)
  err : Option ExtractError
  noImages : Bool
deriving Repr, DecidableEq

/-- Model of `export_plain_bitmap`: read the `uint32_t` size, derive the
output filename, and copy that many raw bytes to the new file. -/
def export_plain_bitmap (fname : List Char) (idx : Nat) (data : List Nat)
    (pos : Nat) : Except Unit ((List Char × List Nat) × Nat) :=
  match readU32 data pos with
  | .error e => .error e
  | .ok (size, p) =>
    match export_bitmap_plain data p size with
    | .error e => .error e
    | .ok (bytes, p2) => .ok ((derive_output_filename fname idx, bytes), p2)

/-- Model of `export_compressed_bitmap`: read `size1` (the decoded size),
`size2` and the unused flag byte, construct a fresh `ilzrwstream` over the
current position (its window taking the indeterminate contents `lzMem`),
and copy `size1` bytes from it to the new file. -/
def export_compressed_bitmap (lzMem : List Nat) (fname : List Char) (idx : Nat)
    (data : List Nat) (pos : Nat) : Except Unit ((List Char × List Nat) × Nat) :=
  match readU32 data pos with
  | .error e => .error e
  | .ok (size1, p1) =>
    match readU32 data p1 with
    | .error e => .error e
    | .ok (_size2, p2) =>
      match readU8 data p2 with
      | .error e => .error e
      | .ok (_unknown, p3) =>
        match export_bitmap_lz (ilzrwstream_init lzMem) data p3 size1 with
        | .error e => .error e
        | .ok (bytes, _, p4) =>
            .ok ((derive_output_filename fname idx, bytes), p4)

/-- Body of the entry loop in `extract`: seek the source to the entry's
offset, read the `kind` byte and dispatch; a `kind` other than 8 or 9
raises the "unknown type" error, which carries the kind value read
(`throw error("unknown type: %u", type)`). -/
def processEntry (lzMem : List Nat) (fname : List Char) (data : List Nat)
    (idx ofs : Nat) : Except ExtractError (List Char × List Nat) :=
  match readU8 data ofs with
  | .error _ => .error .endOfStream
  | .ok (t, p) =>
    if t = 8 then
      match export_plain_bitmap fname idx data p with
      | .error _ => .error .endOfStream
      | .ok (out, _) => .ok out
    else if t = 9 then
      match export_compressed_bitmap lzMem fname idx data p with
      | .error _ => .error .endOfStream
      | .ok (out, _) => .ok out
    else .error (.unknownType t)

/-- The entry loop of `extract`: process the entries at the listed offsets
in order, collecting the files written; the first error stops the loop and
is reported, leaving the remaining offsets untouched. -/
def processEntries (lzMem : List Nat) (fname : List Char) (data : List Nat)
    (idx : Nat) : List Nat → List (List Char × List Nat) × Option ExtractError
  | [] => ([], none)
  | ofs :: rest =>
    match processEntry lzMem fname data idx ofs with
    | .error e => ([], some e)
    | .ok out =>
      let (outs, e) := processEntries lzMem fname data (idx + 1) rest
      (out :: outs, e)

/-- The directory read in `extract`: `count` consecutive `uint32_t` offsets. -/
def readU32List (data : List Nat) (pos : Nat) : Nat → Except Unit (List Nat × Nat)
  | 0 => .ok ([], pos)
  | n + 1 =>
    match readU32 data pos with
    | .error e => .error e
    | .ok (v, p) =>
      match readU32List data p n with
      | .error e => .error e
      | .ok (vs, p2) => .ok (v :: vs, p2)

/-- Model of `extract`: read the version byte and require 8; read the 8
magic bytes and on mismatch print "Does not contain images" (`noImages`)
and finish with no outputs and no error; otherwise read the directory
(count, then the offsets) and run the entry loop.  `lzMem` stands for the
indeterminate initial window contents of any decoder the run constructs. -/
def extract (lzMem : List Nat) (fname : List Char) (data : List Nat) :
    ExtractOutcome :=
  match readU8 data 0 with
  | .error _ => ⟨[], some .endOfStream, false⟩
  | .ok (version, p1) =>
    if version = 8 then
      match tryReadBytesP data p1 8 with
      | .error _ => ⟨[], some .endOfStream, false⟩
      | .ok (magic, p2) =>
        if is_bitmap_list magic then
          match readU32 data p2 with
          | .error _ => ⟨[], some .endOfStream, false⟩
          | .ok (count, p3) =>
            match readU32List data p3 count with
            | .error _ => ⟨[], some .endOfStream, false⟩
            | .ok (offsets, _) =>
              let (outs, e) := processEntries lzMem fname data 0 offsets
              ⟨outs, e, false⟩
        else ⟨[], none, true⟩
    else ⟨[], some (.unknownVersion version), false⟩

/-- Written from the spec's words for comparison in claim C6 (§4.1):
"high 4 bits of distance from bits 12–15 of the descriptor" placed at bit
positions 8–11, OR-ed with "low 8 bits of distance from bits 0–7". -/
def spec_distance (tmp : Nat) : Nat :=
  (((tmp >>> 12) &&& 15) <<< 8) ||| (tmp &&& 255)

/-- Written from the spec's words for comparison in claim C6 (§4.1):
"length is bits 8–11 of the descriptor, biased by +1". -/
def spec_length (tmp : Nat) : Nat :=
  ((tmp >>> 8) &&& 15) + 1

theorem readU8_ok_bounds {data : List Nat} {p v q : Nat}
    (hr : readU8 data p = .ok (v, q)) : q = p + 1 ∧ p + 1 ≤ data.length := by
  unfold readU8 tryReadBytesP at hr
  split at hr
  · rename_i hle
    split at hle
    · rename_i hcond
      simp only [Except.ok.injEq, Prod.mk.injEq] at hle hr
      omega
    · exact absurd hle (by simp)
  · exact absurd hr (by simp)

theorem readU16_ok_bounds {data : List Nat} {p v q : Nat}
    (hr : readU16 data p = .ok (v, q)) : q = p + 2 ∧ p + 2 ≤ data.length := by
  unfold readU16 tryReadBytesP at hr
  split at hr
  · rename_i hle
    split at hle
    · rename_i hcond
      simp only [Except.ok.injEq, Prod.mk.injEq] at hle hr
      omega
    · exact absurd hle (by simp)
  · exact absurd hr (by simp)

theorem readU32_ok_bounds {data : List Nat} {p v q : Nat}
    (hr : readU32 data p = .ok (v, q)) : q = p + 4 ∧ p + 4 ≤ data.length := by
  unfold readU32 tryReadBytesP at hr
  split at hr
  · rename_i hle
    split at hle
    · rename_i hcond
      simp only [Except.ok.injEq, Prod.mk.injEq] at hle hr
      omega
    · exact absurd hle (by simp)
  · exact absurd hr (by simp)

theorem lz_step_ok_bounds {st : LZState} {data : List Nat} {pos : Nat}
    {buf : Nat → Option Nat} {offset : Nat} {st' : LZState} {pos' : Nat}
    {buf' : Nat → Option Nat}
    (h : lz_step st data pos buf offset = .ok (st', pos', buf')) :
    pos < pos' ∧ pos' ≤ data.length := by
  have hrf : ∀ st1 p1, lz_refill st data pos = .ok (st1, p1) →
      pos ≤ p1 ∧ p1 ≤ data.length ∨ p1 = pos := by
    intro st1 p1 hr
    unfold lz_refill at hr
    split at hr
    · split at hr
      · exact absurd hr (by simp)
      · rename_i w p hw
        simp only [Except.ok.injEq, Prod.mk.injEq] at hr
        have := readU16_ok_bounds hw
        omega
    · simp only [Except.ok.injEq, Prod.mk.injEq] at hr
      omega
  unfold lz_step at h
  split at h
  · exact absurd h (by simp)
  · rename_i st1 p1 hrfe
    have hp1 := hrf _ _ hrfe
    split at h
    · split at h
      · exact absurd h (by simp)
      · rename_i tmp p2 htmp
        simp only [Except.ok.injEq, Prod.mk.injEq] at h
        have := readU16_ok_bounds htmp
        omega
    · split at h
      · exact absurd h (by simp)
      · rename_i v p2 hv
        simp only [Except.ok.injEq, Prod.mk.injEq] at h
        have := readU8_ok_bounds hv
        omega

theorem lz_try_read_err (data : List Nat) :
    ∀ (n : Nat) (st : LZState) (pos amount remaining : Nat) (buf : Nat → Option Nat),
      data.length - pos ≤ n → remaining ≠ 0 →
      lz_try_read st data pos amount remaining buf = .error () := by
  intro n
  induction n with
  | zero =>
    intro st pos amount remaining buf hn hrem
    rw [lz_try_read]
    rw [if_neg hrem]
    split
    · rfl
    · rename_i st' pos' buf' hstep
      have := lz_step_ok_bounds hstep
      omega
  | succ n ih =>
    intro st pos amount remaining buf hn hrem
    rw [lz_try_read]
    rw [if_neg hrem]
    split
    · rfl
    · rename_i st' pos' buf' hstep
      have hb := lz_step_ok_bounds hstep
      exact ih st' pos' amount remaining buf' (by omega) hrem

theorem lz_read_err {st : LZState} {data : List Nat} {pos remaining : Nat}
    (hrem : remaining ≠ 0) : lz_read st data pos remaining = .error () := by
  rw [lz_read]
  rw [if_neg hrem]
  rw [lz_try_read_err data (data.length - pos) st pos remaining remaining
    (fun _ => none) (le_refl _) hrem]

theorem export_bitmap_lz_err {st : LZState} {data : List Nat} {pos remaining : Nat}
    (hrem : remaining ≠ 0) :
    export_bitmap_lz st data pos remaining = .error () := by
  rw [export_bitmap_lz]
  rw [if_neg hrem]
  rw [lz_read_err (by omega : min remaining 4096 ≠ 0)]

theorem lz_copy_last (w : List Nat) (wi ofs : Nat) {len : Nat} (hlen : len ≠ 0)
    (d0 : Option Nat) :
    lz_copy w wi ofs len d0 = some (w.getD (window_ref_index wi ofs (len - 1)) 0) := by
  obtain ⟨m, rfl⟩ : ∃ m, len = m + 1 := ⟨len - 1, by omega⟩
  unfold lz_copy
  rw [List.range_succ, List.foldl_append]
  simp

/-- Claim C1.  In the source, the loop of `ilzrwstream_impl::try_read`
never decrements `remaining`, so for every requested `amount ≠ 0` the call
can never return normally: whatever the decoder state, the input bytes and
the position, it consumes input until a read fails and `end_of_stream`
propagates — even when the compressed input held ample data.  The claimed
contract (emit exactly `n` bytes, succeed when the input suffices) is
therefore violated at every positive `n`. -/
theorem try_read_never_returns_normally (st : LZState) (data : List Nat)
    (pos amount : Nat) (h : amount ≠ 0) :
    ilz_try_read st data pos amount = .error () := by
  unfold ilz_try_read
  exact lz_try_read_err data (data.length - pos) st pos amount amount _ (le_refl _) h

/-- Witness for claim C1: requesting one byte from a fresh decoder over the
compressed stream `00 00 41` (a zeroed control word and the literal `A`,
which should decode to exactly one byte) still ends in `end_of_stream`. -/
theorem try_read_never_returns_normally_witness :
    (1 : Nat) ≠ 0 ∧
      ilz_try_read (ilzrwstream_init []) [0, 0, 65] 0 1 = .error () :=
  ⟨by decide, try_read_never_returns_normally (ilzrwstream_init []) [0, 0, 65] 0 1 (by decide)⟩

/-- Claim C2.  The source never shifts `m_control_bits` and never
decrements `m_control_remaining` after decoding a token: whenever the
counter is nonzero (so no refill happens), a successful iteration leaves
both control fields exactly as they were.  No control bit is consumed per
token, every token retests bit 0 of the same control word, the counter
never returns to 0 once set to 16, and a second control word is never
pulled — contradicting the claimed shift/decrement and the
16-tokens-per-control-word boundary. -/
theorem lz_step_consumes_no_control_bit (st : LZState) (data : List Nat)
    (pos : Nat) (buf : Nat → Option Nat) (offset : Nat) (st' : LZState)
    (pos' : Nat) (buf' : Nat → Option Nat)
    (hcr : st.control_remaining ≠ 0)
    (h : lz_step st data pos buf offset = .ok (st', pos', buf')) :
    st'.control_bits = st.control_bits ∧
      st'.control_remaining = st.control_remaining := by
  simp only [lz_step, lz_refill, if_neg hcr] at h
  split at h
  · split at h
    · exact absurd h (by simp)
    · simp only [Except.ok.injEq, Prod.mk.injEq] at h
      obtain ⟨rfl, -, -⟩ := h
      exact ⟨rfl, rfl⟩
  · split at h
    · exact absurd h (by simp)
    · simp only [Except.ok.injEq, Prod.mk.injEq] at h
      obtain ⟨rfl, -, -⟩ := h
      exact ⟨rfl, rfl⟩

/-- Witness for claim C2: a state with control word `0b10` and 16 bits
remaining decodes a literal (bit 0 is 0) and afterwards still holds control
word `0b10` with 16 bits remaining — nothing was shifted or decremented. -/
theorem lz_step_consumes_no_control_bit_witness :
    (16 : Nat) ≠ 0 ∧
      lz_step ⟨[], 5, 2, 16⟩ [65] 0 (fun _ => none) 0 =
        .ok (⟨[], 6, 2, 16⟩, 1, Function.update (fun _ => none) 0 (some 65)) ∧
      (2 : Nat) = 2 ∧ (16 : Nat) = 16 :=
  ⟨by decide, by rfl,
    lz_step_consumes_no_control_bit ⟨[], 5, 2, 16⟩ [65] 0 (fun _ => none) 0
      ⟨[], 6, 2, 16⟩ 1 (Function.update (fun _ => none) 0 (some 65))
      (by decide) (by rfl)⟩

/-- Claim C3.  On a back-reference (control bit set, 16-bit descriptor
`tmp` read), the source leaves the decoder state completely unchanged — no
resolved byte is inserted into the window and the cursor does not advance —
and its copy loop stores every resolved byte through the same pointer
`dst`, so only the single buffer cell at `offset` is written, ending as the
byte at window index `window_ref_index window_index (lz_ofs tmp) (lz_len tmp - 1)`
(an index the code does not wrap back into the ring).  The claimed
per-byte output advance, window insertion and cursor advance do not
happen; in particular distance 1 with length L yields one written cell, not
L repetitions of the preceding byte. -/
theorem lz_step_back_reference_behaviour (st : LZState) (data : List Nat)
    (pos : Nat) (buf : Nat → Option Nat) (offset : Nat) (tmp p2 : Nat)
    (hcr : st.control_remaining ≠ 0)
    (hbit : st.control_bits &&& 1 ≠ 0)
    (hread : readU16 data pos = .ok (tmp, p2)) :
    lz_step st data pos buf offset =
      .ok (st, p2, Function.update buf offset
        (some (st.window.getD
          (window_ref_index st.window_index (lz_ofs tmp) (lz_len tmp - 1)) 0))) := by
  simp only [lz_step, lz_refill, if_neg hcr, if_pos hbit, hread]
  rw [lz_copy_last st.window st.window_index (lz_ofs tmp)
    (by unfold lz_len; omega) (buf offset)]

/-- Witness for claim C3: after one literal `A` (window cell 0 holds 65,
cursor at 1), the descriptor `0x0301` (distance 1, length 4) — which should
emit `A A A A` — leaves the state untouched and writes the single cell
`offset` with the window byte at index `window_ref_index 1 1 3 = 3`. -/
theorem lz_step_back_reference_behaviour_witness :
    (16 : Nat) ≠ 0 ∧ (1 : Nat) &&& 1 ≠ 0 ∧
      readU16 [1, 3] 0 = .ok (769, 2) ∧
      lz_step ⟨[65], 1, 1, 16⟩ [1, 3] 0 (fun _ => none) 0 =
        .ok (⟨[65], 1, 1, 16⟩, 2, Function.update (fun _ => none) 0
          (some (([65] : List Nat).getD (window_ref_index 1 (lz_ofs 769) (lz_len 769 - 1)) 0))) :=
  ⟨by decide, by decide, rfl,
    lz_step_back_reference_behaviour ⟨[65], 1, 1, 16⟩ [1, 3] 0 (fun _ => none) 0
      769 2 (by decide) (by decide) rfl⟩

/-- Claim C4.  The constructor `ilzrwstream_impl::ilzrwstream_impl` does
not initialize `m_window`: the model passes the indeterminate pre-existing
contents through unchanged, so a window filled with a nonzero garbage byte
stays that way; the window is not zero-filled at the start of decoding, and
a back-reference resolved before the referenced cell was written reads
whatever garbage the allocation held, not 0. -/
theorem ilzrwstream_init_keeps_window_uninitialized :
    (∀ w : List Nat, (ilzrwstream_init w).window = w) ∧
      (ilzrwstream_init (List.replicate 4096 7)).window ≠ List.replicate 4096 0 ∧
      (ilzrwstream_init (List.replicate 4096 7)).window.getD 0 0 = 7 := by
  refine ⟨fun w => rfl, ?_, by rfl⟩
  intro h
  exact absurd (congrArg List.head? h) (by decide)

/-- Claim C5.  The copy-loop index `((m_window_index + (4096 - ofs)) % 4096) + i`
adds `i` outside the modulo, so it is not confined to `0..4095`: with the
cursor at 0, distance 1 (within `0..4095`) and length 2 (within `1..16`),
the second resolved byte is read from index 4096 — one past the end of the
4096-byte array. -/
theorem window_ref_index_out_of_bounds :
    window_ref_index 0 1 1 = 4096 ∧ ¬ window_ref_index 0 1 1 ≤ 4095 := by
  decide

/-- Claim C6.  For every descriptor word the code's distance
`((tmp & 0xf000) >> 4) | (tmp & 0xff)` places bits 12–15 of the descriptor
at bit positions 8–11 and ORs in bits 0–7, exactly as the spec words it,
and the code's length `((tmp & 0xf00) >> 8) + 1` is bits 8–11 plus 1, so a
stored length nibble of 0 means length 1. -/
theorem descriptor_fields_match_spec (tmp : Nat) :
    lz_ofs tmp = spec_distance tmp ∧ lz_len tmp = spec_length tmp := by
  constructor
  · unfold lz_ofs spec_distance
    have h : (0xf000 : Nat) = 15 <<< 12 := by decide
    have key : ((tmp &&& 0xf000) >>> 4) = (((tmp >>> 12) &&& 15) <<< 8) := by
      apply Nat.eq_of_testBit_eq
      intro i
      rw [h]
      simp only [Nat.testBit_shiftRight, Nat.testBit_shiftLeft, Nat.testBit_and]
      by_cases h8 : 8 ≤ i
      · have h12 : 12 ≤ 4 + i := by omega
        have he : 12 + (i - 8) = 4 + i := by omega
        have he2 : 4 + i - 12 = i - 8 := by omega
        simp [h8, h12, he, he2]
      · have h12 : ¬ (12 ≤ 4 + i) := by omega
        simp [h8, h12]
    rw [key]
  · unfold lz_len spec_length
    have h : (0xf00 : Nat) = 15 <<< 8 := by decide
    have key : ((tmp &&& 0xf00) >>> 8) = ((tmp >>> 8) &&& 15) := by
      apply Nat.eq_of_testBit_eq
      intro i
      rw [h]
      simp only [Nat.testBit_shiftRight, Nat.testBit_shiftLeft, Nat.testBit_and]
      simp [show (8 ≤ 8 + i) by omega]
    rw [key]

theorem export_bitmap_plain_eq (data : List Nat) :
    ∀ (n pos : Nat), pos + n ≤ data.length →
      export_bitmap_plain data pos n = .ok ((data.drop pos).take n, pos + n) := by
  intro n
  induction n using Nat.strong_induction_on with
  | _ n ih =>
    intro pos hle
    by_cases h0 : n = 0
    · subst h0
      rw [export_bitmap_plain]
      simp
    · rw [export_bitmap_plain]
      rw [if_neg h0]
      have hmin : pos + min n 4096 ≤ data.length := by omega
      simp only [tryReadBytesP, if_pos hmin]
      rw [ih (n - min n 4096) (by omega) (pos + min n 4096) (by omega)]
      have hsplit : (data.drop pos).take n =
          (data.drop pos).take (min n 4096) ++
            ((data.drop pos).drop (min n 4096)).take (n - min n 4096) := by
        rw [← List.take_add]
        congr 1
        omega
      rw [hsplit, List.drop_drop]
      have harith : pos + min n 4096 + (n - min n 4096) = pos + n := by omega
      rw [harith]

/-- Claim C7.  A plain entry reads its `uint32_t` size at `pos` (leaving
the stream at `pos + 4`) and, when the source holds that many further
bytes, writes to the sink exactly the `size` bytes that follow the size
field, byte for byte. -/
theorem export_plain_bitmap_writes_following_bytes (fname : List Char)
    (idx : Nat) (data : List Nat) (pos size p : Nat)
    (hsz : readU32 data pos = .ok (size, p))
    (hlen : p + size ≤ data.length) :
    p = pos + 4 ∧
      export_plain_bitmap fname idx data pos =
        .ok ((derive_output_filename fname idx, (data.drop p).take size), p + size) := by
  obtain ⟨hp, -⟩ := readU32_ok_bounds hsz
  refine ⟨hp, ?_⟩
  simp only [export_plain_bitmap, hsz, export_bitmap_plain_eq data size p hlen]

/-- Witness for claim C7: the spec's end-to-end fixture — a plain entry of
size 4 with payload `DE AD BE EF` — copies exactly those four bytes. -/
theorem export_plain_bitmap_writes_following_bytes_witness :
    readU32 [4, 0, 0, 0, 222, 173, 190, 239] 0 = .ok (4, 4) ∧
      4 + 4 ≤ ([4, 0, 0, 0, 222, 173, 190, 239] : List Nat).length ∧
      ((4 : Nat) = 0 + 4 ∧
        export_plain_bitmap (("a.ris").data) 0 [4, 0, 0, 0, 222, 173, 190, 239] 0 =
          .ok ((derive_output_filename (("a.ris").data) 0,
            (([4, 0, 0, 0, 222, 173, 190, 239] : List Nat).drop 4).take 4), 4 + 4)) :=
  ⟨rfl, by decide,
    export_plain_bitmap_writes_following_bytes (("a.ris").data) 0
      [4, 0, 0, 0, 222, 173, 190, 239] 0 4 4 rfl (by decide)⟩

/-- Claim C8.  When the version byte is the supported 8 but the 8 magic
bytes differ from `"LMDBML30"`, `extract` ends successfully with zero
entries, no error and the "Does not contain images" report — whatever
bytes follow the magic: the directory is never read. -/
theorem extract_magic_mismatch_no_images (lzMem : List Nat) (fname : List Char)
    (m rest : List Nat) (h8 : m.length = 8) (hm : m ≠ bitmap_list_magic) :
    extract lzMem fname (8 :: (m ++ rest)) = ⟨[], none, true⟩ := by
  have hv : readU8 (8 :: (m ++ rest)) 0 = .ok (8, 1) := by
    unfold readU8 tryReadBytesP
    rw [if_pos (by simp)]
    simp
  have hmg : tryReadBytesP (8 :: (m ++ rest)) 1 8 = .ok (m, 9) := by
    unfold tryReadBytesP
    rw [if_pos (by simp [h8])]
    simp only [List.drop_succ_cons, List.drop_zero]
    rw [List.take_left' h8]
  have hb : is_bitmap_list m = false := by
    unfold is_bitmap_list
    exact beq_eq_false_iff_ne.mpr hm
  simp only [extract, hv, hmg, hb]
  rfl

/-- Witness for claim C8: version 8 with eight zero magic bytes and no
further content yields the no-images outcome. -/
theorem extract_magic_mismatch_no_images_witness :
    (List.replicate 8 0 : List Nat).length = 8 ∧
      (List.replicate 8 0 : List Nat) ≠ bitmap_list_magic ∧
      extract [] [] (8 :: (List.replicate 8 0 ++ [])) = ⟨[], none, true⟩ :=
  ⟨by decide, by decide,
    extract_magic_mismatch_no_images [] [] (List.replicate 8 0) [] (by decide) (by decide)⟩

theorem processEntries_append_err (lzMem : List Nat) (fname : List Char)
    (data : List Nat) :
    ∀ (pre : List Nat) (idx : Nat) (outs : List (List Char × List Nat))
      (o : Nat) (post : List Nat) (e : ExtractError),
      processEntries lzMem fname data idx pre = (outs, none) →
      processEntry lzMem fname data (idx + pre.length) o = .error e →
      processEntries lzMem fname data idx (pre ++ o :: post) = (outs, some e) := by
  intro pre
  induction pre with
  | nil =>
    intro idx outs o post e hpre ho
    simp only [processEntries, Prod.mk.injEq] at hpre
    obtain ⟨h1, -⟩ := hpre
    subst h1
    simp only [List.length_nil, Nat.add_zero] at ho
    simp only [List.nil_append, processEntries, ho]
  | cons a pre ih =>
    intro idx outs o post e hpre ho
    simp only [processEntries] at hpre
    cases hpa : processEntry lzMem fname data idx a with
    | error e1 =>
      rw [hpa] at hpre
      simp at hpre
    | ok out =>
      rw [hpa] at hpre
      rcases hrec : processEntries lzMem fname data (idx + 1) pre with ⟨outs2, e2⟩
      rw [hrec] at hpre
      simp only [Prod.mk.injEq] at hpre
      obtain ⟨h1, h2⟩ := hpre
      subst h1
      subst h2
      have ho2 : processEntry lzMem fname data ((idx + 1) + pre.length) o = .error e := by
        have harr : (idx + 1) + pre.length = idx + (a :: pre).length := by
          simp [List.length_cons]
          omega
        rw [harr]
        exact ho
      have hres := ih (idx + 1) outs2 o post e hrec ho2
      simp only [List.cons_append, processEntries, hpa, List.append_eq, hres]

/-- Claim C9 (amended).  When the archive parses — version 8, the
bitmap-list magic, a directory whose offsets split as `pre ++ o :: post` —
and the entries at the `pre` offsets all export successfully, an entry
whose kind byte `t` is neither 8 nor 9 makes `extract` stop with the
"unknown type" error carrying the kind value `t` (not the entry's index or
offset): the outputs are exactly those of the `pre` entries and no entry at
the `post` offsets is processed. -/
theorem extract_unknown_type_aborts (lzMem : List Nat) (fname : List Char)
    (data : List Nat) (pre post : List Nat) (o t count dirEnd : Nat)
    (outs : List (List Char × List Nat))
    (hv : readU8 data 0 = .ok (8, 1))
    (hmg : tryReadBytesP data 1 8 = .ok (bitmap_list_magic, 9))
    (hc : readU32 data 9 = .ok (count, 13))
    (ho : readU32List data 13 count = .ok (pre ++ o :: post, dirEnd))
    (hpre : processEntries lzMem fname data 0 pre = (outs, none))
    (ht : readU8 data o = .ok (t, o + 1))
    (h8 : t ≠ 8) (h9 : t ≠ 9) :
    extract lzMem fname data = ⟨outs, some (.unknownType t), false⟩ := by
  have hentry : processEntry lzMem fname data (0 + pre.length) o =
      .error (.unknownType t) := by
    simp only [processEntry, ht, if_neg h8, if_neg h9]
  have hloop := processEntries_append_err lzMem fname data pre 0 outs o post _ hpre hentry
  have hbm : is_bitmap_list bitmap_list_magic = true := by decide
  simp only [extract, hv, hmg, hbm, hc, ho, hloop, if_true]

/-- Witness for claim C9: version 8, magic, one directory entry at offset
17 whose kind byte is 255 — extraction stops with the unknown-type error
carrying 255 and no outputs. -/
theorem extract_unknown_type_aborts_witness :
    readU8 [8, 76, 77, 68, 66, 77, 76, 51, 48, 1, 0, 0, 0, 17, 0, 0, 0, 255] 0 = .ok (8, 1) ∧
      tryReadBytesP [8, 76, 77, 68, 66, 77, 76, 51, 48, 1, 0, 0, 0, 17, 0, 0, 0, 255] 1 8 =
        .ok (bitmap_list_magic, 9) ∧
      readU32 [8, 76, 77, 68, 66, 77, 76, 51, 48, 1, 0, 0, 0, 17, 0, 0, 0, 255] 9 = .ok (1, 13) ∧
      readU32List [8, 76, 77, 68, 66, 77, 76, 51, 48, 1, 0, 0, 0, 17, 0, 0, 0, 255] 13 1 =
        .ok ([] ++ 17 :: [], 17) ∧
      processEntries [] [] [8, 76, 77, 68, 66, 77, 76, 51, 48, 1, 0, 0, 0, 17, 0, 0, 0, 255] 0 [] =
        ([], none) ∧
      readU8 [8, 76, 77, 68, 66, 77, 76, 51, 48, 1, 0, 0, 0, 17, 0, 0, 0, 255] 17 =
        .ok (255, 17 + 1) ∧
      (255 : Nat) ≠ 8 ∧ (255 : Nat) ≠ 9 ∧
      extract [] [] [8, 76, 77, 68, 66, 77, 76, 51, 48, 1, 0, 0, 0, 17, 0, 0, 0, 255] =
        ⟨[], some (.unknownType 255), false⟩ :=
  ⟨rfl, rfl, rfl, rfl, rfl, rfl, by decide, by decide,
    extract_unknown_type_aborts [] []
      [8, 76, 77, 68, 66, 77, 76, 51, 48, 1, 0, 0, 0, 17, 0, 0, 0, 255]
      [] [] 17 255 1 17 [] rfl rfl rfl rfl rfl rfl (by decide) (by decide)⟩

/-- Counterexample to claim C9 as stated: the "unknown type" error does not
reference the failing entry.  Two archives whose failing entries differ in
both index and offset — the first fails at entry 0 (offset 17), the second
at entry 1 (offset 26, after a successful plain entry) — produce the very
same error value, `unknownType 255`, which carries only the kind byte. -/
theorem extract_unknown_type_error_identical_across_entries :
    extract [] [] [8, 76, 77, 68, 66, 77, 76, 51, 48, 1, 0, 0, 0, 17, 0, 0, 0, 255] =
      ⟨[], some (.unknownType 255), false⟩ ∧
      extract [] [] [8, 76, 77, 68, 66, 77, 76, 51, 48, 2, 0, 0, 0, 21, 0, 0, 0,
          26, 0, 0, 0, 8, 0, 0, 0, 0, 255] =
        ⟨[([], [])], some (.unknownType 255), false⟩ := by
  constructor
  · rfl
  · have hplain : export_bitmap_plain
        [8, 76, 77, 68, 66, 77, 76, 51, 48, 2, 0, 0, 0, 21, 0, 0, 0,
          26, 0, 0, 0, 8, 0, 0, 0, 0, 255] 26 0 = .ok ([], 26) := by
      rw [export_bitmap_plain]
      simp
    simp [extract, readU8, readU32, readU32List, tryReadBytesP, processEntries,
      processEntry, export_plain_bitmap, derive_output_filename, find_last_of,
      is_bitmap_list, bitmap_list_magic, hplain]

theorem find_last_of_eq_none {s : List Char} {c : Char} (h : c ∉ s) :
    find_last_of s c = none := by
  induction s with
  | nil => rfl
  | cons a rest ih =>
    simp only [List.mem_cons, not_or] at h
    obtain ⟨hne, hrest⟩ := h
    simp only [find_last_of, ih hrest]
    rw [if_neg (fun hac => hne hac.symm)]

theorem find_last_of_cons (a : Char) (s : List Char) (c : Char) :
    find_last_of (a :: s) c =
      match find_last_of s c with
      | some i => some (i + 1)
      | none => if a = c then some 0 else none := rfl

theorem find_last_of_append_last {q : List Char} (p : List Char) (hq : '.' ∉ q) :
    find_last_of (p ++ '.' :: q) '.' = some p.length := by
  induction p with
  | nil =>
    rw [List.nil_append, find_last_of_cons, find_last_of_eq_none hq]
    simp
  | cons a p ih =>
    rw [List.cons_append, find_last_of_cons, ih]
    simp

/-- Claim C10.  The derived output filename is the archive filename
truncated at its last dot with `.N.bmp` appended (`N` in decimal), and a
filename without any dot derives the empty name. -/
theorem derive_output_filename_truncates_at_last_dot (s p q : List Char) (n : Nat) :
    ('.' ∉ s → derive_output_filename s n = []) ∧
      ('.' ∉ q → derive_output_filename (p ++ '.' :: q) n =
        p ++ '.' :: ((Nat.repr n).data ++ (".bmp").data)) := by
  constructor
  · intro h
    unfold derive_output_filename
    rw [find_last_of_eq_none h]
  · intro hq
    unfold derive_output_filename
    simp only [find_last_of_append_last p hq]
    rw [List.take_left]
    simp

/-- Witness for claim C10: a dotless name derives the empty name, and
`a.ris` with index 7 derives `a.7.bmp`. -/
theorem derive_output_filename_truncates_at_last_dot_witness :
    ('.' ∉ ("abc").data) ∧
      derive_output_filename (("abc").data) 7 = [] ∧
      ('.' ∉ ("ris").data) ∧
      derive_output_filename (("a").data ++ '.' :: ("ris").data) 7 =
        ("a").data ++ '.' :: ((Nat.repr 7).data ++ (".bmp").data) :=
  ⟨by decide,
    (derive_output_filename_truncates_at_last_dot (("abc").data)
      (("a").data) (("ris").data) 7).1 (by decide),
    by decide,
    (derive_output_filename_truncates_at_last_dot (("abc").data)
      (("a").data) (("ris").data) 7).2 (by decide)⟩

end Risconvert
